import Mathlib

/-!
Verification development for the PDF exercise extractor
(`src/pdf_extractor`): a shallow embedding of the bounding-box
calculators (`utils/bbox_operations.py`), the header classifier and the
extraction orchestrator (`main.py`), together with theorems about them.

Modelling conventions:
* Coordinates and font sizes are exact integers (`Int`); the source works
  with real-valued coordinates, and every operation the code performs on
  them (comparison, `min`, `max`, addition of the fixed margin) is modelled
  exactly.
* The float-valued `header_detection_threshold` (default `0.3`) is
  modelled as an exact fraction `num/den` with `den > 0`; the comparison
  `bbox.y0 < page_height * threshold` becomes the equivalent
  cross-multiplied integer comparison.
* A document is the list of its pages; a page carries the data the code
  queries from the PDF library: its geometry rectangle, the flattened
  block/line/span structure from `get_text("dict")`, the rectangles
  returned by `search_for(pattern)`, and the word boxes from
  `get_text("words")`.
* `_find_exercise_headers` drives a regular-expression engine and literal
  text search over raw page text, both services of the external PDF
  library; the orchestrator is therefore parameterised by the
  (deterministic) list of confirmed headers per page it produces.
-/

/-- A `fitz.Rect`: coordinates of the top-left and bottom-right corners. -/
structure Rect where
  x0 : Int
  y0 : Int
  x1 : Int
  y1 : Int
deriving DecidableEq, Repr

/-- PyMuPDF `Rect.height` is the vertical extent `y1 - y0`. -/
def Rect.height (r : Rect) : Int := r.y1 - r.y0

/-- PyMuPDF rectangle truthiness: a `Rect` is falsy exactly when all four
of its coordinates are zero (`__bool__` is `not (max(self) == min(self) == 0)`). -/
def Rect.toBool (r : Rect) : Bool :=
  !(r.x0 == 0 && r.y0 == 0 && r.x1 == 0 && r.y1 == 0)

/-- PyMuPDF `Rect.intersects`: the two rectangles share a non-empty
(positive-area) common rectangle. -/
def Rect.intersects (a b : Rect) : Bool :=
  max a.x0 b.x0 < min a.x1 b.x1 && max a.y0 b.y0 < min a.y1 b.y1

/-- One text span from `page.get_text("dict")`: bounding box, font size,
style flags and font name (as a character sequence). -/
structure Span where
  bbox : Rect
  size : Int
  flags : Nat
  font : List Char
deriving DecidableEq, Repr

/-- One page of the source document, carrying the results of the PDF
library queries the extractor performs on it. -/
structure Page where
  /-- `page.rect`, the page geometry. -/
  rect : Rect
  /-- flattened spans of `get_text("dict")` in block/line/span order. -/
  spans : List Span
  /-- rectangles returned by `page.search_for(pattern)`, in library order. -/
  matchRects : List Rect
  /-- word bounding boxes from `page.get_text("words")`. -/
  words : List Rect
deriving DecidableEq, Repr

/-- `ExtractionConfig` from `config/settings.py`, restricted to the fields
the extraction logic reads.  `header_threshold_num/den` model the float
`header_detection_threshold = 0.3` as the exact fraction `3/10`. -/
structure ExtractionConfig where
  min_font_size : Int := 10
  max_pages_to_search : Nat := 10
  header_threshold_num : Int := 3
  header_threshold_den : Int := 10
  preview_mode : Bool := false
  show_progress : Bool := true
deriving Repr

/-- Python `min(rs, key=lambda x: x.y0)` over a non-empty list: the first
element attaining the minimal `y0` (strict-`<` replacement keeps the
earliest minimum, exactly as Python's `min` does); `none` on `[]`. -/
def minByY0 : List Rect → Option Rect
  | [] => none
  | r :: rs => some (rs.foldl (fun acc x => if x.y0 < acc.y0 then x else acc) r)

/-- The filter `inst.y0 > header_bbox.y1` of `calculate_section_bounds`:
pattern matches strictly below the header. -/
def matchesBelow (header_bbox : Rect) (ms : List Rect) : List Rect :=
  ms.filter (fun inst => decide (header_bbox.y1 < inst.y0))

/-- The loop over `range(page_num + 1, len(doc))` in
`calculate_section_bounds`, applied to the pages after the current one:
the nearest (minimal-`y0`) match on the first later page that has any. -/
def firstLaterPageMatch : List Page → Option Rect
  | [] => none
  | p :: ps =>
    match minByY0 p.matchRects with
    | some r => some r
    | none => firstLaterPageMatch ps

/-- The word probe of `calculate_section_bounds`: the maximum of
`header_bbox.y1` and the bottom edges of all words strictly below the
header. -/
def maxWordBottom (header_bbox : Rect) (ws : List Rect) : Int :=
  ws.foldl (fun mb w => if header_bbox.y1 < w.y0 then max mb w.y1 else mb) header_bbox.y1

/-- `calculate_section_bounds` from `utils/bbox_operations.py`.  The top is
the header's top edge; the bottom is the top of the nearest same-page match
strictly below the header, else the top of the nearest match on the first
later page that has one, else the page height, overridden by the lowest
word bottom plus the fixed margin `20` when a word lies below the header.
The final rectangle always spans the full page width (the source assigns
`section_right` from the same-page match but never uses it). -/
def calculate_section_bounds (page : Page) (header_bbox : Rect) (doc : List Page)
    (page_num : Nat) : Option Rect :=
  let section_top := header_bbox.y0
  let remaining_text_instances := matchesBelow header_bbox page.matchRects
  let section_bottom :=
    match minByY0 remaining_text_instances with
    | some next_exercise_bbox => next_exercise_bbox.y0
    | none =>
      match firstLaterPageMatch (doc.drop (page_num + 1)) with
      | some next_exercise_bbox => next_exercise_bbox.y0
      | none =>
        let max_bottom := maxWordBottom header_bbox page.words
        if header_bbox.y1 < max_bottom then max_bottom + 20 else page.rect.height
  some { x0 := page.rect.x0, y0 := section_top, x1 := page.rect.x1, y1 := section_bottom }

/-- The per-page filter of `calculate_multiline_section_bounds`: on the
start page only matches strictly below the header count; on later pages
every match counts. -/
def relevantInstances (header_bbox : Rect) (start_page_num cur : Nat)
    (ms : List Rect) : List Rect :=
  ms.filter (fun inst =>
    if cur = start_page_num then decide (header_bbox.y1 < inst.y0) else true)

/-- The page loop of `calculate_multiline_section_bounds`, recursing on the
number of pages still allowed to be visited (`fuel`), starting at page
index `cur`.  A page with a qualifying match yields a final rectangle down
to that match's top and stops; otherwise the page contributes a rectangle
down to the full page height and the loop continues. -/
def collectPages (doc : List Page) (header_bbox : Rect) (start_page_num : Nat) :
    Nat → Nat → List (Nat × Rect)
  | _, 0 => []
  | cur, fuel + 1 =>
    match doc[cur]? with
    | none => []
    | some current_page =>
      let current_top := if cur = start_page_num then header_bbox.y0 else 0
      let relevant := relevantInstances header_bbox start_page_num cur current_page.matchRects
      match minByY0 relevant with
      | some first_next_header =>
        [(cur, ⟨current_page.rect.x0, current_top, current_page.rect.x1,
                first_next_header.y0⟩)]
      | none =>
        (cur, ⟨current_page.rect.x0, current_top, current_page.rect.x1,
               current_page.rect.height⟩)
          :: collectPages doc header_bbox start_page_num (cur + 1) fuel

/-- `calculate_multiline_section_bounds` from `utils/bbox_operations.py`:
collects per-page rectangles over `range(start, min(len(doc), start + max))`
and, when the collection is non-empty, pairs it with an overall rectangle
from the header's top on the start page down to the bottom edge of the last
collected rectangle. -/
def calculate_multiline_section_bounds (start_page : Page) (header_bbox : Rect)
    (doc : List Page) (start_page_num : Nat) (max_pages_to_search : Nat) :
    Option (Rect × List (Nat × Rect)) :=
  let stop := min doc.length (start_page_num + max_pages_to_search)
  let page_bounds := collectPages doc header_bbox start_page_num start_page_num
    (stop - start_page_num)
  match page_bounds.getLast? with
  | none => none
  | some (_, last_bbox) =>
    some (⟨start_page.rect.x0, header_bbox.y0, start_page.rect.x1, last_bbox.y1⟩,
          page_bounds)

/-- Bool test of whether `small` occurs at the start of `l`. -/
def seqStartsWith : List Char → List Char → Bool
  | [], _ => true
  | _ :: _, [] => false
  | a :: as, b :: bs => a == b && seqStartsWith as bs

/-- Python's substring containment `needle in haystack` on character
sequences. -/
def seqContains (needle : List Char) : List Char → Bool
  | [] => needle.isEmpty
  | b :: bs => seqStartsWith needle (b :: bs) || seqContains needle bs

/-- ASCII lower-casing of one character, as Python `str.lower` acts on the
font names involved. -/
def lowerChar (c : Char) : Char :=
  if 'A' ≤ c && c ≤ 'Z' then Char.ofNat (c.toNat + 32) else c

/-- Python `str.lower` on a character sequence. -/
def lowerSeq (s : List Char) : List Char := s.map lowerChar

/-- The font-branch test of `_is_header_format` for one span: the span
intersects the candidate, its size reaches the configured minimum, and it
is bold by style flag (bit 3), bold/black by font name, or strictly larger
than the minimum size. -/
def spanQualifies (cfg : ExtractionConfig) (bbox : Rect) (span : Span) : Bool :=
  span.bbox.intersects bbox &&
    (cfg.min_font_size ≤ span.size &&
      (Nat.land span.flags 8 != 0 ||
        (seqContains "bold".data (lowerSeq span.font) ||
         seqContains "black".data (lowerSeq span.font)) ||
        cfg.min_font_size < span.size))

/-- The position fallback of `_is_header_format`:
`bbox.y0 < page_height * header_detection_threshold`, cross-multiplied by
the (positive) denominator of the threshold fraction. -/
def positionFallback (cfg : ExtractionConfig) (page : Page) (bbox : Rect) : Bool :=
  bbox.y0 * cfg.header_threshold_den < page.rect.height * cfg.header_threshold_num

/-- `_is_header_format` from `main.py`: true when some span of the page
passes the font branch, else when the candidate's top edge lies within the
configured top-of-page fraction of the page height. -/
def is_header_format (cfg : ExtractionConfig) (page : Page) (bbox : Rect) : Bool :=
  page.spans.any (spanQualifies cfg bbox) || positionFallback cfg page bbox

/-- Observable state of `extract_exercises`: the output pages appended so
far (as source-page/clip pairs, in order), the appended logical sections
(one entry per multi-page group or single-page section), the running
`extracted_count`, and how often the single-page fallback branch ran. -/
structure ExtractState where
  outputs : List (Nat × Rect)
  sections : List (List (Nat × Rect))
  extracted_count : Nat
  single_branch_calls : Nat
deriving DecidableEq, Repr

/-- The state `extract_exercises` starts from: empty output document,
count zero. -/
def initState : ExtractState := ⟨[], [], 0, 0⟩

/-- The per-header body of `extract_exercises`: the multi-page calculator
is tried first; a truthy (non-`None`) result appends one output page per
collected pair and counts one section.  Otherwise the single-page
calculator runs, and a truthy rectangle appends one output page and counts
one section. -/
def processHeader (cfg : ExtractionConfig) (doc : List Page) (page_num : Nat)
    (page : Page) (header_bbox : Rect) (st : ExtractState) : ExtractState :=
  match calculate_multiline_section_bounds page header_bbox doc page_num
      cfg.max_pages_to_search with
  | some (_, page_bounds) =>
    { st with outputs := st.outputs ++ page_bounds,
              sections := st.sections ++ [page_bounds],
              extracted_count := st.extracted_count + 1 }
  | none =>
    let st := { st with single_branch_calls := st.single_branch_calls + 1 }
    match calculate_section_bounds page header_bbox doc page_num with
    | some section_bbox =>
      if section_bbox.toBool then
        { st with outputs := st.outputs ++ [(page_num, section_bbox)],
                  sections := st.sections ++ [[(page_num, section_bbox)]],
                  extracted_count := st.extracted_count + 1 }
      else st
    | none => st

/-- The per-page body of `extract_exercises`: every confirmed header of the
page is processed in discovery order. -/
def processPage (cfg : ExtractionConfig) (find_headers : Page → List Rect)
    (doc : List Page) (page_num : Nat) (page : Page) (st : ExtractState) :
    ExtractState :=
  (find_headers page).foldl
    (fun st h => processHeader cfg doc page_num page h st) st

/-- The page loop of `extract_exercises` over `range(len(input_doc))`,
carrying the current page index alongside the remaining pages. -/
def extractLoop (cfg : ExtractionConfig) (find_headers : Page → List Rect)
    (doc : List Page) : Nat → List Page → ExtractState → ExtractState
  | _, [], st => st
  | page_num, page :: rest, st =>
    extractLoop cfg find_headers doc (page_num + 1) rest
      (processPage cfg find_headers doc page_num page st)

/-- `extract_exercises` from `main.py`, with the file I/O stripped:
`find_headers` stands for `_find_exercise_headers` (deterministic per
page), and the returned state records the output pages, the logical
sections, the count the method returns, and the fallback-branch uses. -/
def extract_exercises (cfg : ExtractionConfig) (find_headers : Page → List Rect)
    (doc : List Page) : ExtractState :=
  extractLoop cfg find_headers doc 0 doc initState

/-- Total number of pattern matches classified as headers across the
document: what `_find_exercise_headers` yields, summed over all pages. -/
def totalHeaders (find_headers : Page → List Rect) (doc : List Page) : Nat :=
  (doc.map (fun p => (find_headers p).length)).sum

/-! ## Helper lemmas -/

/-- The fold Python's `min` performs over the tail, split out for proofs. -/
def minFoldY0 (r : Rect) (rs : List Rect) : Rect :=
  rs.foldl (fun acc x => if x.y0 < acc.y0 then x else acc) r

lemma minFoldY0_cons (r b : Rect) (bs : List Rect) :
    minFoldY0 r (b :: bs) = minFoldY0 (if b.y0 < r.y0 then b else r) bs := rfl

lemma minByY0_cons (r : Rect) (rs : List Rect) :
    minByY0 (r :: rs) = some (minFoldY0 r rs) := rfl

lemma minFoldY0_mem (r : Rect) (rs : List Rect) : minFoldY0 r rs ∈ r :: rs := by
  induction rs generalizing r with
  | nil => simp [minFoldY0]
  | cons b bs ih =>
    rw [minFoldY0_cons]
    rcases List.mem_cons.1 (ih (if b.y0 < r.y0 then b else r)) with h1 | h1
    · rw [h1]
      by_cases hb : b.y0 < r.y0
      · simp [hb]
      · simp [hb]
    · simp [List.mem_cons, h1]

lemma minFoldY0_le (r : Rect) (rs : List Rect) :
    (minFoldY0 r rs).y0 ≤ r.y0 ∧ ∀ x ∈ rs, (minFoldY0 r rs).y0 ≤ x.y0 := by
  induction rs generalizing r with
  | nil => simp [minFoldY0]
  | cons b bs ih =>
    obtain ⟨h1, h2⟩ := ih (if b.y0 < r.y0 then b else r)
    rw [minFoldY0_cons]
    refine ⟨le_trans h1 ?_, ?_⟩
    · by_cases hb : b.y0 < r.y0
      · simp only [if_pos hb]
        exact le_of_lt hb
      · simp [hb]
    · intro x hx
      rcases List.mem_cons.1 hx with hx | hx
      · rw [hx]
        refine le_trans h1 ?_
        by_cases hb : b.y0 < r.y0
        · simp [hb]
        · simp only [if_neg hb]
          exact le_of_not_lt hb
      · exact h2 x hx

lemma minByY0_mem {l : List Rect} {r : Rect} (h : minByY0 l = some r) : r ∈ l := by
  cases l with
  | nil => simp [minByY0] at h
  | cons a as =>
    rw [minByY0_cons, Option.some.injEq] at h
    rw [← h]
    exact minFoldY0_mem a as

lemma minByY0_le {l : List Rect} {r : Rect} (h : minByY0 l = some r) :
    ∀ x ∈ l, r.y0 ≤ x.y0 := by
  cases l with
  | nil => simp [minByY0] at h
  | cons a as =>
    rw [minByY0_cons, Option.some.injEq] at h
    intro x hx
    rcases List.mem_cons.1 hx with hx | hx
    · rw [← h, hx]
      exact (minFoldY0_le a as).1
    · rw [← h]
      exact (minFoldY0_le a as).2 x hx

lemma minByY0_eq_none_iff {l : List Rect} : minByY0 l = none ↔ l = [] := by
  cases l <;> simp [minByY0]

/-! ## C9: the single-page calculator is total -/

/-- Claim C9: `calculate_section_bounds` returns a rectangle for every
input and never returns `none`, despite its `Optional` return contract;
in particular, when the only continuation match lies on a later page above
the header's top coordinate, the returned rectangle has negative height
(bottom above top) rather than being `none`. -/
theorem calculate_section_bounds_total :
    (∀ (page : Page) (header_bbox : Rect) (doc : List Page) (page_num : Nat),
      (calculate_section_bounds page header_bbox doc page_num).isSome = true) ∧
    (∃ r : Rect,
      calculate_section_bounds ⟨⟨0, 0, 100, 200⟩, [], [], []⟩ ⟨10, 100, 60, 110⟩
        [⟨⟨0, 0, 100, 200⟩, [], [], []⟩, ⟨⟨0, 0, 100, 200⟩, [], [⟨10, 5, 60, 15⟩], []⟩] 0
        = some r ∧ r.y1 < r.y0) := by
  constructor
  · intro page header_bbox doc page_num
    rfl
  · exact ⟨⟨0, 100, 100, 5⟩, by decide, by decide⟩

/-! ## C1: same-page section bounds -/

/-- Claim C1 (counterexample): on a page whose nearest pattern match below
the header is `⟨10, 50, 50, 60⟩` (right edge `50`, strictly less than the
page's right edge `100`), the returned rectangle's bottom is that match's
top edge `50`, but its right edge is the page's right edge `100`, not the
match's right edge `50`: the right-edge clipping the claim asserts does not
happen (the source assigns `section_right` and never uses it). -/
theorem calculate_section_bounds_right_edge_cex :
    minByY0 (matchesBelow (⟨10, 10, 60, 20⟩ : Rect)
        [⟨10, 10, 60, 20⟩, ⟨10, 50, 50, 60⟩]) = some ⟨10, 50, 50, 60⟩ ∧
    calculate_section_bounds ⟨⟨0, 0, 100, 200⟩, [], [⟨10, 10, 60, 20⟩, ⟨10, 50, 50, 60⟩], []⟩
        ⟨10, 10, 60, 20⟩
        [⟨⟨0, 0, 100, 200⟩, [], [⟨10, 10, 60, 20⟩, ⟨10, 50, 50, 60⟩], []⟩] 0
      = some ⟨0, 10, 100, 50⟩ ∧
    (⟨0, 10, 100, 50⟩ : Rect).x1 ≠ (⟨10, 50, 50, 60⟩ : Rect).x1 := by
  decide

/-- Claim C1 (amended): for every page with a confirmed header and at least
one pattern match strictly below it, the single-page rectangle's bottom
equals the top edge of the nearest such match (smallest top edge), and its
right edge is the page's right edge (full page width) — not the match's
right edge. -/
theorem calculate_section_bounds_same_page (page : Page) (header_bbox nxt : Rect)
    (doc : List Page) (page_num : Nat)
    (h : minByY0 (matchesBelow header_bbox page.matchRects) = some nxt) :
    calculate_section_bounds page header_bbox doc page_num =
      some ⟨page.rect.x0, header_bbox.y0, page.rect.x1, nxt.y0⟩ ∧
    nxt ∈ page.matchRects ∧ header_bbox.y1 < nxt.y0 ∧
    ∀ m ∈ page.matchRects, header_bbox.y1 < m.y0 → nxt.y0 ≤ m.y0 := by
  have hmem : nxt ∈ matchesBelow header_bbox page.matchRects := minByY0_mem h
  rw [matchesBelow, List.mem_filter] at hmem
  refine ⟨?_, hmem.1, of_decide_eq_true hmem.2, ?_⟩
  · simp only [calculate_section_bounds]
    rw [h]
  · intro m hm hlt
    refine minByY0_le h m ?_
    rw [matchesBelow, List.mem_filter]
    exact ⟨hm, decide_eq_true hlt⟩

/-- Witness for the amended C1 theorem at a concrete page. -/
theorem calculate_section_bounds_same_page_witness :
    calculate_section_bounds ⟨⟨0, 0, 100, 200⟩, [], [⟨10, 10, 60, 20⟩, ⟨10, 50, 50, 60⟩], []⟩
        ⟨10, 10, 60, 20⟩
        [⟨⟨0, 0, 100, 200⟩, [], [⟨10, 10, 60, 20⟩, ⟨10, 50, 50, 60⟩], []⟩] 0
      = some ⟨0, 10, 100, 50⟩ :=
  (calculate_section_bounds_same_page
    ⟨⟨0, 0, 100, 200⟩, [], [⟨10, 10, 60, 20⟩, ⟨10, 50, 50, 60⟩], []⟩
    ⟨10, 10, 60, 20⟩ ⟨10, 50, 50, 60⟩
    [⟨⟨0, 0, 100, 200⟩, [], [⟨10, 10, 60, 20⟩, ⟨10, 50, 50, 60⟩], []⟩] 0 (by decide)).1

/-! ## C2: rectangles versus page geometry -/

/-- A page as the extractor expects it from the PDF library: its geometry
rectangle starts at vertical coordinate `0` (so `height = y1`), and every
pattern-match rectangle the library reports lies vertically within the
page. -/
def Page.WF (p : Page) : Prop :=
  p.rect.y0 = 0 ∧ ∀ m ∈ p.matchRects, 0 ≤ m.y0 ∧ m.y0 ≤ p.rect.height

/-- A rectangle lies within the geometry of a page. -/
def Rect.insidePage (r : Rect) (p : Page) : Prop :=
  p.rect.x0 ≤ r.x0 ∧ r.x1 ≤ p.rect.x1 ∧ p.rect.y0 ≤ r.y0 ∧ r.y1 ≤ p.rect.y1

instance (p : Page) : Decidable p.WF := by
  unfold Page.WF
  infer_instance

instance (r : Rect) (p : Page) : Decidable (r.insidePage p) := by
  unfold Rect.insidePage
  infer_instance

/-- Claim C2 (counterexample): on a page of height `100` whose last word
ends at `95`, with no pattern match anywhere below the header, the
single-page calculator returns a rectangle with bottom `95 + 20 = 115`,
which extends `15` units beyond the page's bottom edge: the
stay-within-page invariant fails for `calculate_section_bounds`. -/
theorem calculate_section_bounds_outside_page_cex :
    ∃ r : Rect,
      calculate_section_bounds ⟨⟨0, 0, 100, 100⟩, [], [⟨10, 10, 60, 20⟩], [⟨10, 30, 90, 95⟩]⟩
          ⟨10, 10, 60, 20⟩
          [⟨⟨0, 0, 100, 100⟩, [], [⟨10, 10, 60, 20⟩], [⟨10, 30, 90, 95⟩]⟩] 0 = some r ∧
      (⟨0, 0, 100, 100⟩ : Rect).y1 < r.y1 :=
  ⟨⟨0, 10, 100, 115⟩, by decide, by decide⟩

lemma collectPages_insidePage (doc : List Page) (header_bbox : Rect) (start : Nat)
    (hwf : ∀ p ∈ doc, Page.WF p) (hhdr : 0 ≤ header_bbox.y0) :
    ∀ (fuel cur : Nat), ∀ pr ∈ collectPages doc header_bbox start cur fuel,
      ∃ p, doc[pr.1]? = some p ∧ pr.2.insidePage p := by
  intro fuel
  induction fuel with
  | zero =>
    intro cur pr hpr
    simp [collectPages] at hpr
  | succ f ih =>
    intro cur pr hpr
    rw [collectPages] at hpr
    cases hcur : doc[cur]? with
    | none =>
      rw [hcur] at hpr
      simp at hpr
    | some p =>
      rw [hcur] at hpr
      obtain ⟨hy0, hms⟩ := hwf p (List.getElem?_mem hcur)
      have hheight : p.rect.height = p.rect.y1 := by
        rw [Rect.height, hy0, sub_zero]
      have htop : p.rect.y0 ≤ if cur = start then header_bbox.y0 else 0 := by
        rw [hy0]
        by_cases hc : cur = start
        · simpa [hc] using hhdr
        · simp [hc]
      cases hmin : minByY0 (relevantInstances header_bbox start cur p.matchRects) with
      | some first_next_header =>
        simp only [hmin] at hpr
        rcases List.mem_singleton.1 hpr with rfl
        refine ⟨p, hcur, le_refl _, le_refl _, htop, ?_⟩
        have hmem : first_next_header ∈ p.matchRects :=
          List.mem_of_mem_filter (minByY0_mem hmin)
        calc first_next_header.y0 ≤ p.rect.height := (hms _ hmem).2
          _ = p.rect.y1 := hheight
      | none =>
        simp only [hmin] at hpr
        rcases List.mem_cons.1 hpr with rfl | hpr
        · exact ⟨p, hcur, le_refl _, le_refl _, htop, le_of_eq hheight⟩
        · exact ih (cur + 1) pr hpr

lemma collectPages_map_fst (doc : List Page) (header_bbox : Rect) (start : Nat) :
    ∀ (fuel cur : Nat),
      (collectPages doc header_bbox start cur fuel).map Prod.fst =
        List.range' cur (collectPages doc header_bbox start cur fuel).length := by
  intro fuel
  induction fuel with
  | zero =>
    intro cur
    simp [collectPages]
  | succ f ih =>
    intro cur
    rw [collectPages]
    cases hcur : doc[cur]? with
    | none => simp
    | some p =>
      cases hmin : minByY0 (relevantInstances header_bbox start cur p.matchRects) with
      | some first_next_header =>
        simp only [hmin]
        rfl
      | none =>
        simp only [hmin, List.map_cons, List.length_cons, ih (cur + 1)]
        rfl

/-- Claim C2 (amended): for pages whose geometry starts at vertical
coordinate `0` and whose reported pattern matches lie within the page, and
a header with a non-negative top edge, every rectangle produced by the
multi-page calculator lies within the geometry of the page it belongs to,
and the page indices form a contiguous non-empty run from the start page.
The single-page calculator does not satisfy the invariant (see the
counterexample): its word-probe bottom `max_bottom + 20` can exceed the
page height. -/
theorem calculate_multiline_section_bounds_within_page
    (start_page : Page) (header_bbox : Rect) (doc : List Page)
    (start_page_num max_pages : Nat) (overall : Rect) (pbs : List (Nat × Rect))
    (hwf : ∀ p ∈ doc, Page.WF p) (hhdr : 0 ≤ header_bbox.y0)
    (hres : calculate_multiline_section_bounds start_page header_bbox doc
      start_page_num max_pages = some (overall, pbs)) :
    pbs ≠ [] ∧ pbs.map Prod.fst = List.range' start_page_num pbs.length ∧
    ∀ pr ∈ pbs, ∃ p, doc[pr.1]? = some p ∧ pr.2.insidePage p := by
  simp only [calculate_multiline_section_bounds] at hres
  cases hlast : (collectPages doc header_bbox start_page_num start_page_num
      (min doc.length (start_page_num + max_pages) - start_page_num)).getLast? with
  | none =>
    rw [hlast] at hres
    exact absurd hres (by simp)
  | some lastPair =>
    obtain ⟨li, lb⟩ := lastPair
    rw [hlast] at hres
    have hpbs : collectPages doc header_bbox start_page_num start_page_num
        (min doc.length (start_page_num + max_pages) - start_page_num) = pbs :=
      congrArg Prod.snd (Option.some.inj hres)
    rw [← hpbs]
    refine ⟨?_, collectPages_map_fst doc header_bbox start_page_num _ _,
      collectPages_insidePage doc header_bbox start_page_num hwf hhdr _ _⟩
    intro hnil
    rw [hnil] at hlast
    simp at hlast

/-- Witness for the amended C2 theorem: a two-page document whose first
page carries the header and whose second page terminates the section. -/
theorem calculate_multiline_section_bounds_within_page_witness :
    ([(0, (⟨0, 10, 100, 200⟩ : Rect)), (1, (⟨0, 0, 100, 40⟩ : Rect))] : List (Nat × Rect)) ≠ [] ∧
    ([(0, (⟨0, 10, 100, 200⟩ : Rect)), (1, (⟨0, 0, 100, 40⟩ : Rect))].map Prod.fst
      = List.range' 0 2) ∧
    ∀ pr ∈ ([(0, (⟨0, 10, 100, 200⟩ : Rect)), (1, (⟨0, 0, 100, 40⟩ : Rect))] : List (Nat × Rect)),
      ∃ p, [⟨⟨0, 0, 100, 200⟩, [], [⟨10, 10, 60, 20⟩], []⟩,
            ⟨⟨0, 0, 100, 200⟩, [], [⟨10, 40, 60, 50⟩], []⟩][pr.1]? = some p ∧
        pr.2.insidePage p := by
  have h := calculate_multiline_section_bounds_within_page
    ⟨⟨0, 0, 100, 200⟩, [], [⟨10, 10, 60, 20⟩], []⟩ ⟨10, 10, 60, 20⟩
    [⟨⟨0, 0, 100, 200⟩, [], [⟨10, 10, 60, 20⟩], []⟩,
     ⟨⟨0, 0, 100, 200⟩, [], [⟨10, 40, 60, 50⟩], []⟩] 0 10
    ⟨0, 10, 100, 40⟩ [(0, ⟨0, 10, 100, 200⟩), (1, ⟨0, 0, 100, 40⟩)]
    (by decide) (by decide) (by decide)
  simpa using h

/-! ## C4: header classification at the font-size boundary -/

/-- Claim C4: a candidate whose intersecting spans all have font size
exactly equal to the configured minimum and carry no bold indicator
(no bold style flag, no bold/black substring in the font name) is
classified by `_is_header_format` exactly as the position fallback
decides: the font-size branch never fires for it. -/
theorem is_header_format_boundary_font_size (cfg : ExtractionConfig)
    (page : Page) (bbox : Rect)
    (h : ∀ s ∈ page.spans, s.bbox.intersects bbox = true →
      s.size = cfg.min_font_size ∧ Nat.land s.flags 8 = 0 ∧
      seqContains "bold".data (lowerSeq s.font) = false ∧
      seqContains "black".data (lowerSeq s.font) = false) :
    is_header_format cfg page bbox = positionFallback cfg page bbox := by
  unfold is_header_format
  have hany : page.spans.any (spanQualifies cfg bbox) = false := by
    rw [List.any_eq_false]
    intro s hs
    unfold spanQualifies
    cases hint : s.bbox.intersects bbox with
    | false => simp
    | true =>
      obtain ⟨h1, h2, h3, h4⟩ := h s hs hint
      simp [h1, h2, h3, h4]
  rw [hany, Bool.false_or]

/-- Witness for the C4 theorem: a 10-point regular Helvetica span exactly
at the configured minimum size, intersecting the candidate; the classifier
agrees with the position fallback (here `true`: the candidate's top edge
`10` satisfies `10 * 10 < 200 * 3`). -/
theorem is_header_format_boundary_font_size_witness :
    is_header_format {} ⟨⟨0, 0, 100, 200⟩,
        [⟨⟨10, 10, 60, 20⟩, 10, 0, "Helvetica".data⟩], [], []⟩ ⟨10, 10, 60, 20⟩ =
      positionFallback {} ⟨⟨0, 0, 100, 200⟩,
        [⟨⟨10, 10, 60, 20⟩, 10, 0, "Helvetica".data⟩], [], []⟩ ⟨10, 10, 60, 20⟩ :=
  is_header_format_boundary_font_size {}
    ⟨⟨0, 0, 100, 200⟩, [⟨⟨10, 10, 60, 20⟩, 10, 0, "Helvetica".data⟩], [], []⟩
    ⟨10, 10, 60, 20⟩ (by decide)

/-! ## C3: sections that never terminate within the page budget -/

lemma collectPages_no_matches (doc : List Page) (header_bbox : Rect) (start : Nat) :
    ∀ (fuel cur : Nat), cur + fuel ≤ doc.length →
      (∀ i, i < fuel → ∀ p, doc[cur + i]? = some p →
        relevantInstances header_bbox start (cur + i) p.matchRects = []) →
      (collectPages doc header_bbox start cur fuel).length = fuel ∧
      ∀ i, i < fuel → ∃ p, doc[cur + i]? = some p ∧
        (collectPages doc header_bbox start cur fuel)[i]? =
          some (cur + i, ⟨p.rect.x0, if cur + i = start then header_bbox.y0 else 0,
                          p.rect.x1, p.rect.height⟩) := by
  intro fuel
  induction fuel with
  | zero =>
    intro cur _ _
    exact ⟨rfl, fun i hi => absurd hi (Nat.not_lt_zero i)⟩
  | succ f ih =>
    intro cur hlen hno
    have hcurlt : cur < doc.length := by omega
    have hcur : doc[cur]? = some doc[cur] := List.getElem?_eq_getElem hcurlt
    have hrel : relevantInstances header_bbox start cur doc[cur].matchRects = [] := by
      have := hno 0 (Nat.succ_pos f) doc[cur]
      rw [Nat.add_zero] at this
      exact this hcur
    have hmin : minByY0 (relevantInstances header_bbox start cur doc[cur].matchRects)
        = none := by
      rw [hrel]
      rfl
    have hstep : collectPages doc header_bbox start cur (f + 1) =
        (cur, ⟨doc[cur].rect.x0, if cur = start then header_bbox.y0 else 0,
               doc[cur].rect.x1, doc[cur].rect.height⟩)
          :: collectPages doc header_bbox start (cur + 1) f := by
      rw [collectPages, hcur]
      simp only [hmin]
    obtain ⟨ihlen, ihget⟩ := ih (cur + 1) (by omega) (by
      intro i hi p hp
      have := hno (i + 1) (by omega) p
      rw [show cur + (i + 1) = cur + 1 + i by omega] at this
      exact this hp)
    constructor
    · rw [hstep, List.length_cons, ihlen]
    · intro i hi
      cases i with
      | zero =>
        refine ⟨doc[cur], ?_, ?_⟩
        · rw [Nat.add_zero]
          exact hcur
        · rw [hstep]
          simp
      | succ j =>
        obtain ⟨p, hp1, hp2⟩ := ihget j (by omega)
        refine ⟨p, ?_, ?_⟩
        · rw [show cur + (j + 1) = cur + 1 + j by omega]
          exact hp1
        · rw [hstep]
          simp only [List.getElem?_cons_succ]
          rw [show cur + (j + 1) = cur + 1 + j by omega]
          exact hp2

/-- Claim C3: when no qualifying pattern match appears on any of the `N`
pages starting at the header's page (`N = max_pages_to_search ≥ 1`) and at
least `N` pages remain in the document, the multi-page calculator produces
exactly `N` page-rectangles, each spanning the full page width, the first
starting at the header's top edge, every later one starting at `0`, and
every one of them ending at the full page height. -/
theorem calculate_multiline_section_bounds_exhausts
    (start_page : Page) (header_bbox : Rect) (doc : List Page)
    (start max_pages : Nat)
    (hmax : 1 ≤ max_pages)
    (hlen : start + max_pages ≤ doc.length)
    (hterm : ∀ i, i < max_pages → ∀ p, doc[start + i]? = some p →
      relevantInstances header_bbox start (start + i) p.matchRects = []) :
    ∃ overall pbs,
      calculate_multiline_section_bounds start_page header_bbox doc start max_pages
        = some (overall, pbs) ∧
      pbs.length = max_pages ∧
      ∀ i, i < max_pages → ∃ p, doc[start + i]? = some p ∧
        pbs[i]? = some (start + i,
          ⟨p.rect.x0, if i = 0 then header_bbox.y0 else 0, p.rect.x1, p.rect.height⟩) := by
  have hfuel : min doc.length (start + max_pages) - start = max_pages := by omega
  obtain ⟨hclen, hcget⟩ :=
    collectPages_no_matches doc header_bbox start max_pages start hlen hterm
  have hne : collectPages doc header_bbox start start max_pages ≠ [] := by
    intro hnil
    rw [hnil] at hclen
    simp at hclen
    omega
  obtain ⟨lastPair, hlast⟩ :=
    Option.isSome_iff_exists.1 (List.getLast?_isSome.2 hne)
  obtain ⟨li, lb⟩ := lastPair
  refine ⟨⟨start_page.rect.x0, header_bbox.y0, start_page.rect.x1, lb.y1⟩,
    collectPages doc header_bbox start start max_pages, ?_, hclen, ?_⟩
  · simp only [calculate_multiline_section_bounds]
    rw [hfuel, hlast]
  · intro i hi
    obtain ⟨p, hp1, hp2⟩ := hcget i hi
    refine ⟨p, hp1, ?_⟩
    rw [hp2]
    have hiff : start + i = start ↔ i = 0 := by omega
    simp only [hiff]

/-- Witness for the C3 theorem: a two-page document with no pattern match
anywhere and a page budget of `2`. -/
theorem calculate_multiline_section_bounds_exhausts_witness :
    ∃ overall pbs,
      calculate_multiline_section_bounds ⟨⟨0, 0, 100, 200⟩, [], [], []⟩ ⟨10, 10, 60, 20⟩
          [⟨⟨0, 0, 100, 200⟩, [], [], []⟩, ⟨⟨0, 0, 100, 200⟩, [], [], []⟩] 0 2
        = some (overall, pbs) ∧
      pbs.length = 2 ∧
      ∀ i, i < 2 → ∃ p,
        ([⟨⟨0, 0, 100, 200⟩, [], [], []⟩,
          ⟨⟨0, 0, 100, 200⟩, [], [], []⟩] : List Page)[0 + i]? = some p ∧
        pbs[i]? = some (0 + i,
          ⟨p.rect.x0, if i = 0 then (⟨10, 10, 60, 20⟩ : Rect).y0 else 0,
           p.rect.x1, p.rect.height⟩) :=
  calculate_multiline_section_bounds_exhausts ⟨⟨0, 0, 100, 200⟩, [], [], []⟩
    ⟨10, 10, 60, 20⟩ [⟨⟨0, 0, 100, 200⟩, [], [], []⟩, ⟨⟨0, 0, 100, 200⟩, [], [], []⟩]
    0 2 (by decide) (by decide) (by decide)

/-! ## C6: a one-page multi-page result refines the single-page calculator -/

lemma relevantInstances_start (header_bbox : Rect) (start : Nat) (ms : List Rect) :
    relevantInstances header_bbox start start ms = matchesBelow header_bbox ms := by
  unfold relevantInstances matchesBelow
  simp

/-- Claim C6: whenever a terminating match exists strictly below the header
on the start page, the multi-page calculator returns a one-page result, and
that single page-rectangle coincides with the rectangle computed by the
single-page calculator for the same header, page and document. -/
theorem multiline_one_page_refines_single
    (page : Page) (header_bbox nxt : Rect) (doc : List Page)
    (start max_pages : Nat)
    (hpage : doc[start]? = some page)
    (hmax : 1 ≤ max_pages)
    (hnxt : minByY0 (matchesBelow header_bbox page.matchRects) = some nxt) :
    ∃ r, calculate_multiline_section_bounds page header_bbox doc start max_pages =
        some (⟨page.rect.x0, header_bbox.y0, page.rect.x1, r.y1⟩, [(start, r)]) ∧
      calculate_section_bounds page header_bbox doc start = some r := by
  obtain ⟨hlen, -⟩ := List.getElem?_eq_some.1 hpage
  have hf : min doc.length (start + max_pages) - start =
      (min doc.length (start + max_pages) - start - 1) + 1 := by omega
  refine ⟨⟨page.rect.x0, header_bbox.y0, page.rect.x1, nxt.y0⟩, ?_, ?_⟩
  · simp only [calculate_multiline_section_bounds]
    rw [hf, collectPages, hpage]
    simp only [relevantInstances_start, hnxt]
    rfl
  · simp only [calculate_section_bounds]
    rw [hnxt]

/-- Witness for the C6 theorem at a concrete one-page document. -/
theorem multiline_one_page_refines_single_witness :
    ∃ r, calculate_multiline_section_bounds
          ⟨⟨0, 0, 100, 200⟩, [], [⟨10, 10, 60, 20⟩, ⟨10, 50, 50, 60⟩], []⟩
          ⟨10, 10, 60, 20⟩
          [⟨⟨0, 0, 100, 200⟩, [], [⟨10, 10, 60, 20⟩, ⟨10, 50, 50, 60⟩], []⟩] 0 10 =
        some (⟨0, 10, 100, r.y1⟩, [(0, r)]) ∧
      calculate_section_bounds
          ⟨⟨0, 0, 100, 200⟩, [], [⟨10, 10, 60, 20⟩, ⟨10, 50, 50, 60⟩], []⟩
          ⟨10, 10, 60, 20⟩
          [⟨⟨0, 0, 100, 200⟩, [], [⟨10, 10, 60, 20⟩, ⟨10, 50, 50, 60⟩], []⟩] 0 = some r :=
  multiline_one_page_refines_single
    ⟨⟨0, 0, 100, 200⟩, [], [⟨10, 10, 60, 20⟩, ⟨10, 50, 50, 60⟩], []⟩
    ⟨10, 10, 60, 20⟩ ⟨10, 50, 50, 60⟩
    [⟨⟨0, 0, 100, 200⟩, [], [⟨10, 10, 60, 20⟩, ⟨10, 50, 50, 60⟩], []⟩]
    0 10 (by decide) (by decide) (by decide)

/-! ## C7: the multi-page calculator returns none only on an empty collection -/

lemma collectPages_ne_nil (doc : List Page) (header_bbox : Rect) (start cur f : Nat)
    (h : cur < doc.length) :
    collectPages doc header_bbox start cur (f + 1) ≠ [] := by
  rw [collectPages, List.getElem?_eq_getElem h]
  cases hmin : minByY0 (relevantInstances header_bbox start cur doc[cur].matchRects) with
  | some r => simp [hmin]
  | none => simp [hmin]

lemma multiline_isSome (start_page : Page) (header_bbox : Rect) (doc : List Page)
    (start max_pages : Nat) (h1 : start < doc.length) (h2 : 1 ≤ max_pages) :
    (calculate_multiline_section_bounds start_page header_bbox doc start
      max_pages).isSome = true := by
  simp only [calculate_multiline_section_bounds]
  have hf : min doc.length (start + max_pages) - start =
      (min doc.length (start + max_pages) - start - 1) + 1 := by omega
  rw [hf]
  have hne := collectPages_ne_nil doc header_bbox start start
    (min doc.length (start + max_pages) - start - 1) h1
  cases hlast : (collectPages doc header_bbox start start
      ((min doc.length (start + max_pages) - start - 1) + 1)).getLast? with
  | none => exact absurd (List.getLast?_eq_none_iff.1 hlast) hne
  | some lp =>
    obtain ⟨li, lb⟩ := lp
    rfl

/-- Claim C7: `calculate_multiline_section_bounds` returns `none` exactly
when the page loop collected zero page-rectangles, which does not occur for
a valid starting header (start index below the document length and a page
budget of at least one); otherwise it returns the non-empty collected list
together with an overall rectangle from the header's top on the start page
to the bottom edge of the last collected page-rectangle. -/
theorem calculate_multiline_section_bounds_none_iff
    (start_page : Page) (header_bbox : Rect) (doc : List Page)
    (start max_pages : Nat) :
    (calculate_multiline_section_bounds start_page header_bbox doc start max_pages
        = none ↔
      collectPages doc header_bbox start start
        (min doc.length (start + max_pages) - start) = []) ∧
    (start < doc.length → 1 ≤ max_pages →
      ∃ pbs lastPair,
        calculate_multiline_section_bounds start_page header_bbox doc start max_pages =
          some (⟨start_page.rect.x0, header_bbox.y0, start_page.rect.x1,
                 lastPair.2.y1⟩, pbs) ∧
        pbs ≠ [] ∧ pbs.getLast? = some lastPair) := by
  constructor
  · cases hlast : (collectPages doc header_bbox start start
        (min doc.length (start + max_pages) - start)).getLast? with
    | none =>
      have hnil := List.getLast?_eq_none_iff.1 hlast
      constructor
      · intro _
        exact hnil
      · intro _
        simp only [calculate_multiline_section_bounds]
        rw [hlast]
    | some lp =>
      obtain ⟨li, lb⟩ := lp
      constructor
      · intro hnone
        simp only [calculate_multiline_section_bounds] at hnone
        rw [hlast] at hnone
        exact absurd hnone (by simp)
      · intro hnil
        rw [hnil] at hlast
        simp at hlast
  · intro h1 h2
    have hf : min doc.length (start + max_pages) - start =
        (min doc.length (start + max_pages) - start - 1) + 1 := by omega
    have hne := collectPages_ne_nil doc header_bbox start start
      (min doc.length (start + max_pages) - start - 1) h1
    rw [← hf] at hne
    obtain ⟨lp, hlast⟩ :=
      Option.isSome_iff_exists.1 (List.getLast?_isSome.2 hne)
    obtain ⟨li, lb⟩ := lp
    refine ⟨collectPages doc header_bbox start start
      (min doc.length (start + max_pages) - start), (li, lb), ?_, hne, hlast⟩
    simp only [calculate_multiline_section_bounds]
    rw [hlast]

/-- Witness for the C7 theorem at a concrete one-page document. -/
theorem calculate_multiline_section_bounds_none_iff_witness :
    ∃ pbs lastPair,
      calculate_multiline_section_bounds ⟨⟨0, 0, 100, 200⟩, [], [], []⟩
          ⟨10, 10, 60, 20⟩ [⟨⟨0, 0, 100, 200⟩, [], [], []⟩] 0 10 =
        some (⟨0, 10, 100, lastPair.2.y1⟩, pbs) ∧
      pbs ≠ [] ∧ pbs.getLast? = some lastPair :=
  (calculate_multiline_section_bounds_none_iff ⟨⟨0, 0, 100, 200⟩, [], [], []⟩
    ⟨10, 10, 60, 20⟩ [⟨⟨0, 0, 100, 200⟩, [], [], []⟩] 0 10).2
    (by decide) (by decide)

/-! ## Orchestrator lemmas -/

lemma processHeader_count_eq_sections (cfg : ExtractionConfig) (doc : List Page)
    (page_num : Nat) (page : Page) (header_bbox : Rect) (st : ExtractState)
    (h : st.extracted_count = st.sections.length) :
    (processHeader cfg doc page_num page header_bbox st).extracted_count =
      (processHeader cfg doc page_num page header_bbox st).sections.length := by
  unfold processHeader
  cases calculate_multiline_section_bounds page header_bbox doc page_num
      cfg.max_pages_to_search with
  | some v =>
    obtain ⟨o, pbs⟩ := v
    simp [h, List.length_append]
  | none =>
    cases calculate_section_bounds page header_bbox doc page_num with
    | some section_bbox =>
      by_cases ht : section_bbox.toBool = true
      · simp [ht, h, List.length_append]
      · simp [Bool.eq_false_iff.2 ht, h]
    | none => simpa using h

lemma processHeader_count_le (cfg : ExtractionConfig) (doc : List Page)
    (page_num : Nat) (page : Page) (header_bbox : Rect) (st : ExtractState) :
    (processHeader cfg doc page_num page header_bbox st).extracted_count ≤
      st.extracted_count + 1 := by
  unfold processHeader
  cases calculate_multiline_section_bounds page header_bbox doc page_num
      cfg.max_pages_to_search with
  | some v =>
    obtain ⟨o, pbs⟩ := v
    exact le_refl _
  | none =>
    cases calculate_section_bounds page header_bbox doc page_num with
    | some section_bbox =>
      by_cases ht : section_bbox.toBool = true
      · simp [ht]
      · simp [Bool.eq_false_iff.2 ht]
    | none => simp

lemma foldl_processHeader_count_eq_sections (cfg : ExtractionConfig) (doc : List Page)
    (page_num : Nat) (page : Page) :
    ∀ (hs : List Rect) (st : ExtractState),
      st.extracted_count = st.sections.length →
      (hs.foldl (fun st h => processHeader cfg doc page_num page h st)
        st).extracted_count =
      (hs.foldl (fun st h => processHeader cfg doc page_num page h st)
        st).sections.length := by
  intro hs
  induction hs with
  | nil =>
    intro st h
    exact h
  | cons a as ih =>
    intro st h
    exact ih _ (processHeader_count_eq_sections cfg doc page_num page a st h)

lemma foldl_processHeader_count_le (cfg : ExtractionConfig) (doc : List Page)
    (page_num : Nat) (page : Page) :
    ∀ (hs : List Rect) (st : ExtractState),
      (hs.foldl (fun st h => processHeader cfg doc page_num page h st)
        st).extracted_count ≤ st.extracted_count + hs.length := by
  intro hs
  induction hs with
  | nil =>
    intro st
    simp
  | cons a as ih =>
    intro st
    calc ((a :: as).foldl (fun st h => processHeader cfg doc page_num page h st)
          st).extracted_count
        ≤ (processHeader cfg doc page_num page a st).extracted_count + as.length :=
          ih _
      _ ≤ st.extracted_count + 1 + as.length :=
          Nat.add_le_add_right (processHeader_count_le cfg doc page_num page a st) _
      _ = st.extracted_count + (a :: as).length := by
          rw [List.length_cons]
          omega

lemma extractLoop_count_eq_sections (cfg : ExtractionConfig)
    (fh : Page → List Rect) (doc : List Page) :
    ∀ (pages : List Page) (n : Nat) (st : ExtractState),
      st.extracted_count = st.sections.length →
      (extractLoop cfg fh doc n pages st).extracted_count =
        (extractLoop cfg fh doc n pages st).sections.length := by
  intro pages
  induction pages with
  | nil =>
    intro n st h
    exact h
  | cons page rest ih =>
    intro n st h
    exact ih _ _ (foldl_processHeader_count_eq_sections cfg doc n page (fh page) st h)

lemma extractLoop_count_le (cfg : ExtractionConfig)
    (fh : Page → List Rect) (doc : List Page) :
    ∀ (pages : List Page) (n : Nat) (st : ExtractState),
      (extractLoop cfg fh doc n pages st).extracted_count ≤
        st.extracted_count + (pages.map (fun p => (fh p).length)).sum := by
  intro pages
  induction pages with
  | nil =>
    intro n st
    simp [extractLoop]
  | cons page rest ih =>
    intro n st
    calc (extractLoop cfg fh doc n (page :: rest) st).extracted_count
        ≤ (processPage cfg fh doc n page st).extracted_count +
            (rest.map (fun p => (fh p).length)).sum := ih _ _
      _ ≤ st.extracted_count + (fh page).length +
            (rest.map (fun p => (fh p).length)).sum :=
          Nat.add_le_add_right (foldl_processHeader_count_le cfg doc n page (fh page) st) _
      _ = st.extracted_count + ((page :: rest).map (fun p => (fh p).length)).sum := by
          rw [List.map_cons, List.sum_cons]
          omega

/-! ## C5: the extraction count -/

/-- Claim C5: the count returned by `extract_exercises` equals the number
of logical sections appended (one per multi-page group regardless of how
many output pages it produced, one per single-page section), and never
exceeds the total number of pattern matches classified as headers across
the document.  Being a natural number it is non-negative. -/
theorem extract_exercises_count_bounds (cfg : ExtractionConfig)
    (find_headers : Page → List Rect) (doc : List Page) :
    (extract_exercises cfg find_headers doc).extracted_count =
      (extract_exercises cfg find_headers doc).sections.length ∧
    (extract_exercises cfg find_headers doc).extracted_count ≤
      totalHeaders find_headers doc := by
  constructor
  · exact extractLoop_count_eq_sections cfg find_headers doc doc 0 initState rfl
  · have h := extractLoop_count_le cfg find_headers doc doc 0 initState
    simpa [extract_exercises, totalHeaders, initState] using h

/-! ## C8: extraction is deterministic -/

/-- Claim C8: two runs of `extract_exercises` on the same document with the
same configuration (and the same header-finding results, which depend only
on the page layout) yield the same section count, the same output pages in
the same order, and the same per-section rectangles: the computation has no
hidden randomness. -/
theorem extract_exercises_deterministic (cfg : ExtractionConfig)
    (find_headers : Page → List Rect) (doc : List Page) (run1 run2 : ExtractState)
    (h1 : run1 = extract_exercises cfg find_headers doc)
    (h2 : run2 = extract_exercises cfg find_headers doc) :
    run1.extracted_count = run2.extracted_count ∧ run1.outputs = run2.outputs ∧
    run1.sections = run2.sections := by
  subst h1
  subst h2
  exact ⟨rfl, rfl, rfl⟩

/-- Witness for the C8 theorem: two runs on a concrete one-page document. -/
theorem extract_exercises_deterministic_witness :
    (extract_exercises {} (fun p => p.matchRects)
        [⟨⟨0, 0, 100, 200⟩, [], [⟨10, 10, 60, 20⟩], []⟩]).extracted_count =
      (extract_exercises {} (fun p => p.matchRects)
        [⟨⟨0, 0, 100, 200⟩, [], [⟨10, 10, 60, 20⟩], []⟩]).extracted_count ∧
    (extract_exercises {} (fun p => p.matchRects)
        [⟨⟨0, 0, 100, 200⟩, [], [⟨10, 10, 60, 20⟩], []⟩]).outputs =
      (extract_exercises {} (fun p => p.matchRects)
        [⟨⟨0, 0, 100, 200⟩, [], [⟨10, 10, 60, 20⟩], []⟩]).outputs ∧
    (extract_exercises {} (fun p => p.matchRects)
        [⟨⟨0, 0, 100, 200⟩, [], [⟨10, 10, 60, 20⟩], []⟩]).sections =
      (extract_exercises {} (fun p => p.matchRects)
        [⟨⟨0, 0, 100, 200⟩, [], [⟨10, 10, 60, 20⟩], []⟩]).sections :=
  extract_exercises_deterministic {} (fun p => p.matchRects)
    [⟨⟨0, 0, 100, 200⟩, [], [⟨10, 10, 60, 20⟩], []⟩] _ _ rfl rfl

/-! ## C10: the single-page fallback branch is unreachable -/

lemma processHeader_single_calls (cfg : ExtractionConfig) (doc : List Page)
    (page_num : Nat) (page : Page) (header_bbox : Rect) (st : ExtractState)
    (hlen : page_num < doc.length) (hmax : 1 ≤ cfg.max_pages_to_search) :
    (processHeader cfg doc page_num page header_bbox st).single_branch_calls =
      st.single_branch_calls := by
  have hs := multiline_isSome page header_bbox doc page_num
    cfg.max_pages_to_search hlen hmax
  unfold processHeader
  cases hm : calculate_multiline_section_bounds page header_bbox doc page_num
      cfg.max_pages_to_search with
  | none =>
    rw [hm] at hs
    simp at hs
  | some v =>
    obtain ⟨o, pbs⟩ := v
    rfl

lemma foldl_processHeader_single_calls (cfg : ExtractionConfig) (doc : List Page)
    (page_num : Nat) (page : Page)
    (hlen : page_num < doc.length) (hmax : 1 ≤ cfg.max_pages_to_search) :
    ∀ (hs : List Rect) (st : ExtractState),
      (hs.foldl (fun st h => processHeader cfg doc page_num page h st)
        st).single_branch_calls = st.single_branch_calls := by
  intro hs
  induction hs with
  | nil =>
    intro st
    rfl
  | cons a as ih =>
    intro st
    rw [List.foldl_cons, ih,
      processHeader_single_calls cfg doc page_num page a st hlen hmax]

lemma extractLoop_single_calls (cfg : ExtractionConfig)
    (fh : Page → List Rect) (doc : List Page)
    (hmax : 1 ≤ cfg.max_pages_to_search) :
    ∀ (pages : List Page) (n : Nat) (st : ExtractState), doc.drop n = pages →
      (extractLoop cfg fh doc n pages st).single_branch_calls =
        st.single_branch_calls := by
  intro pages
  induction pages with
  | nil =>
    intro n st _
    rfl
  | cons page rest ih =>
    intro n st hdrop
    have hlendrop : doc.length - n = rest.length + 1 := by
      rw [← List.length_drop, hdrop, List.length_cons]
    have hlen : n < doc.length := by omega
    have hrest : doc.drop (n + 1) = rest := by
      have htl := congrArg List.tail hdrop
      rw [List.tail_drop] at htl
      simpa using htl
    rw [extractLoop, ih (n + 1) _ hrest]
    exact foldl_processHeader_single_calls cfg doc n page hlen hmax (fh page) st

/-- Claim C10: with a page budget of at least one, the multi-page
calculator returns a truthy result for every header the orchestrator
processes (all of them lie on pages with index below the document length),
so the single-page fallback branch of `extract_exercises` never runs and
`calculate_section_bounds` is never invoked by the orchestrator. -/
theorem extract_exercises_single_branch_unreachable (cfg : ExtractionConfig)
    (find_headers : Page → List Rect) (doc : List Page)
    (hmax : 1 ≤ cfg.max_pages_to_search) :
    (extract_exercises cfg find_headers doc).single_branch_calls = 0 := by
  unfold extract_exercises
  rw [extractLoop_single_calls cfg find_headers doc hmax doc 0 initState (by simp)]
  rfl

/-- Witness for the C10 theorem at a concrete one-page document with the
default configuration. -/
theorem extract_exercises_single_branch_unreachable_witness :
    (extract_exercises {} (fun p => p.matchRects)
      [⟨⟨0, 0, 100, 200⟩, [], [⟨10, 10, 60, 20⟩], []⟩]).single_branch_calls = 0 :=
  extract_exercises_single_branch_unreachable {} (fun p => p.matchRects)
    [⟨⟨0, 0, 100, 200⟩, [], [⟨10, 10, 60, 20⟩], []⟩] (by decide)
